import Mathlib

/-!
Verification of the documentation export pipeline of the saros-sdk-docs
repository: the slug registry, title extraction (the `/^# (.+)$/m` match),
the single-document plain-text export route (`src/app/api/llm/[slug]/route.ts`),
the bulk export route (`src/app/llms-full.txt/route.ts`), and the client-side
markdown renderer components (`MarkdownRenderer.tsx`, `PageHeader.tsx`).

Strings are modelled by Lean `String` (a wrapper around `List Char`); the
storage collaborator (`fs.readFile`) is modelled by a function
`String → Option String`, where `some content` is a successful read and
`none` is a thrown read error.
-/

namespace SarosDocs

/-- The shared slug registry `docFiles`, declared identically in both route
files. -/
def docFiles : List String :=
  ["saros-docs-index",
   "saros-docs-quickstart",
   "saros-tutorial-swap",
   "saros-tutorial-liquidity",
   "saros-tutorial-farming",
   "saros-api-reference",
   "saros-code-examples",
   "saros-troubleshooting",
   "saros-sdk-analysis",
   "saros-sdk-comparison"]

/-- JavaScript line terminators recognised by `^`/`$` in a multiline regex. -/
def isLineTerm (c : Char) : Bool := c == '\n' || c == '\r'

/-- Split a character list at every line terminator, keeping empty lines.
This models the line structure over which the JS multiline anchors `^` and
`$` operate. -/
def splitTerm : List Char → List (List Char)
  | [] => [[]]
  | c :: rest =>
    if isLineTerm c then [] :: splitTerm rest
    else
      match splitTerm rest with
      | [] => [[c]]
      | s :: ss => (c :: s) :: ss

/-- The match of `/^# (.+)$/` against one terminator-free line: the line must
start with `"# "` and have at least one further character; the capture is
everything after the marker. -/
def h1Capture? : List Char → Option (List Char)
  | '#' :: ' ' :: c :: rest => some (c :: rest)
  | _ => none

/-- Model of `content.match(/^# (.+)$/m)`: the capture of the first line matching the
level-1 heading pattern. -/
def matchH1 (content : String) : Option String :=
  ((splitTerm content.data).findSome? h1Capture?).map String.mk

/-- The `title` value in both export routes: first `# ` heading capture, with the fixed
fallback `'Saros SDK Documentation'`. -/
def extractTitle (content : String) : String :=
  (matchH1 content).getD "Saros SDK Documentation"

/-- The `pageTitle` value in `PageHeader.tsx`: the same match with fallback
`'Documentation'`. -/
def pageTitle (content : String) : String :=
  (matchH1 content).getD "Documentation"

/-- The `Cache-Control` header of the single-document route. -/
def singleCacheControl : String := "public, max-age=3600"

/-- The `Cache-Control` header of the bulk route. -/
def fullCacheControl : String := "public, max-age=86400"

/-- Model of `export const revalidate = false` in `llms-full.txt/route.ts`: the bulk
artifact is never revalidated. -/
def fullRevalidate : Bool := false

/-- The template literal `llmText` of the single-document route, as a function
of the request origin, slug and loaded raw text. -/
def llmText (origin slug content : String) : String :=
  "# " ++ extractTitle content ++ "\nURL: /docs/" ++ slug ++ "\nSource: " ++
    origin ++ "/docs/" ++ slug ++ "\n\n" ++ extractTitle content ++
    " documentation from Saros SDK Docs.\n        \n***\n\n" ++ content

/-- An HTTP response as the routes build it: status, body and the two headers
the routes set explicitly. -/
structure HttpResponse where
  status : Nat
  body : String
  contentType : Option String
  cacheControl : Option String
deriving DecidableEq

/-- The `GET` handler of `src/app/api/llm/[slug]/route.ts`. The second component lists
the storage reads the handler performed: the registry check happens before
any read, a read is attempted only inside the `try` block. -/
def getSingle (store : String → Option String) (origin slug : String) :
    HttpResponse × List String :=
  if docFiles.contains slug then
    match store slug with
    | some content =>
        (⟨200, llmText origin slug content, some "text/plain",
          some singleCacheControl⟩, [slug])
    | none => (⟨500, "Error reading documentation", none, none⟩, [slug])
  else
    (⟨404, "Documentation not found", none, none⟩, [])

/-- The per-document success segment of the bulk route: same title extraction,
but the source line hardcodes the production origin and no description block
is emitted. -/
def bulkSegment (slug content : String) : String :=
  "# " ++ extractTitle content ++ "\nURL: /docs/" ++ slug ++
    "\nSource: https://saros-sdk-docs.vercel.app/docs/" ++ slug ++ "\n\n" ++
    content

/-- The per-document failure placeholder of the bulk route's `catch` branch. -/
def bulkPlaceholder (slug : String) : String :=
  "# Error loading " ++ slug ++ "\nFailed to load documentation for " ++ slug

/-- The `allDocs` array of the bulk route: one segment per registry slug, a failed read
replaced by the placeholder. -/
def allDocs (store : String → Option String) : List String :=
  docFiles.map (fun slug =>
    match store slug with
    | some content => bulkSegment slug content
    | none => bulkPlaceholder slug)

/-- The fixed separator the bulk route joins segments with. -/
def bulkSep : String := "\n\n---\n\n"

/-- Model of `Array.prototype.join`: interleave a separator between list elements. -/
def joinStrings (sep : String) : List String → String
  | [] => ""
  | [s] => s
  | s :: s' :: rest => s ++ sep ++ joinStrings sep (s' :: rest)

/-- The body `combinedContent = allDocs.join('\n\n---\n\n')` of the bulk route. -/
def combinedContent (store : String → Option String) : String :=
  joinStrings bulkSep (allDocs store)

/-- The `GET` handler of `src/app/llms-full.txt/route.ts`. Every per-document failure is
absorbed by the inner `catch`, so the handler always reaches the 200
response; it is total in the model. -/
def getFull (store : String → Option String) : HttpResponse :=
  ⟨200, combinedContent store, some "text/plain", some fullCacheControl⟩

/-! ### A model of `String.prototype.split` with a string separator

JS `split` cuts at the leftmost occurrence of the separator and resumes
after it (occurrences never overlap). The recursion is fuelled; fuel equal
to the length of the scanned list is always enough. -/

/-- One leftmost-first scan step of `split`: cut where `sep` is a prefix,
otherwise move one character into the current piece. -/
def splitGo (sep : List Char) : Nat → List Char → List (List Char)
  | _, [] => [[]]
  | 0, cs => [cs]
  | fuel + 1, c :: rest =>
    if sep.isPrefixOf (c :: rest) then
      [] :: splitGo sep fuel ((c :: rest).drop sep.length)
    else
      match splitGo sep fuel rest with
      | [] => [[c]]
      | s :: ss => (c :: s) :: ss

/-- The `split` operation on character lists. -/
def jsSplitL (sep cs : List Char) : List (List Char) := splitGo sep cs.length cs

/-- Model of `s.split(sep)` for a non-empty string separator. -/
def jsSplit (sep s : String) : List String := (jsSplitL sep.data s.data).map String.mk

/-- Character-list counterpart of `joinStrings`. -/
def joinSep (sep : List Char) : List (List Char) → List Char
  | [] => []
  | [s] => s
  | s :: s' :: rest => s ++ sep ++ joinSep sep (s' :: rest)

/-- A piece is *safe* for a separator when no occurrence of the separator
starts inside it, even one completed by the separator that the join writes
right after the piece. Splitting a safe join recovers exactly the pieces. -/
def Safe (sep s : List Char) : Prop :=
  ∀ i, i < s.length → ¬ (sep.isPrefixOf ((s ++ sep).drop i) = true)

instance (sep s : List Char) : Decidable (Safe sep s) :=
  Nat.decidableBallLT s.length _

/-- The `Safe` predicate at the level of the route's strings and its fixed separator. -/
def SafeSeg (s : String) : Prop := Safe bulkSep.data s.data

instance (s : String) : Decidable (SafeSeg s) := by
  unfold SafeSeg; infer_instance

/-- The bulk store assignment exhibiting the split-count failure: the first
registry read succeeds with text containing the separator, all others throw. -/
def cexStore : String → Option String := fun slug =>
  if slug = "saros-docs-index" then some "Alpha\n\n---\n\nBeta" else none

/-! ### The markdown renderer components -/

/-- Parsed block-level nodes handed to the custom components of
`MarkdownRenderer.tsx` (the parts the heading- and link-policy claims are
about). -/
inductive MdNode where
  | h1 (text : String)
  | h2 (text : String)
  | h3 (text : String)
  | h4 (text : String)
  | p (text : String)
  | a (href : Option String) (text : String)
  | hr
deriving DecidableEq

/-- What a component call renders: React `null`, a heading of a given level,
a paragraph, an anchor with its `target`, `rel` and external-indicator
affordances, or a rule separator. -/
inductive Rendered where
  | nothing
  | heading (level : Nat) (text : String)
  | paragraph (text : String)
  | anchor (href : Option String) (text : String) (target : Option String)
      (rel : Option String) (externalIcon : Bool)
  | separator
deriving DecidableEq

/-- Model of `href?.startsWith('http')` — `undefined` is falsy. -/
def startsWithHttp : Option String → Bool
  | none => false
  | some h => "http".data.isPrefixOf h.data

/-- The `a` component: all three external affordances are driven by
`href?.startsWith('http')`. -/
def renderAnchor (href : Option String) (text : String) : Rendered :=
  .anchor href text
    (if startsWithHttp href then some "_blank" else none)
    (if startsWithHttp href then some "noopener noreferrer" else none)
    (startsWithHttp href)

/-- One component call of `MarkdownRenderer`. The `h1` component reads and
increments the closure counter `h1Count`; it returns `null` exactly when it
is the first `h1` and `hideFirstH1` is set. -/
def renderStep (hideFirstH1 : Bool) (h1Count : Nat) :
    MdNode → Rendered × Nat
  | .h1 t =>
    if h1Count = 0 ∧ hideFirstH1 then (.nothing, h1Count + 1)
    else (.heading 1 t, h1Count + 1)
  | .h2 t => (.heading 2 t, h1Count)
  | .h3 t => (.heading 3 t, h1Count)
  | .h4 t => (.heading 4 t, h1Count)
  | .p t => (.paragraph t, h1Count)
  | .a href t => (renderAnchor href t, h1Count)
  | .hr => (.separator, h1Count)

/-- Render a node sequence threading the `h1Count` state. -/
def renderList (hideFirstH1 : Bool) : Nat → List MdNode → List Rendered
  | _, [] => []
  | n, node :: rest =>
    let r := renderStep hideFirstH1 n node
    r.1 :: renderList hideFirstH1 r.2 rest

/-- A full `MarkdownRenderer` call: `h1Count` starts at 0. -/
def render (hideFirstH1 : Bool) (nodes : List MdNode) : List Rendered :=
  renderList hideFirstH1 0 nodes

/-- Level-1 heading test on parsed nodes. -/
def isH1Node : MdNode → Bool
  | .h1 _ => true
  | _ => false

/-- Visible level-1 heading test on rendered output. -/
def isVisibleH1 : Rendered → Bool
  | .heading 1 _ => true
  | _ => false

/-! ### Definitions modelled from the spec's words, for comparison -/

/-- The production origin hardcoded in the bulk route's source line. -/
def prodOrigin : String := "https://saros-sdk-docs.vercel.app"

/-- The first three lines shared by both export shapes: title line, canonical
path line, source-origin line. -/
def singleHeader (origin slug content : String) : String :=
  "# " ++ extractTitle content ++ "\nURL: /docs/" ++ slug ++ "\nSource: " ++
    origin ++ "/docs/" ++ slug

/-- The description block that only the single-document export inserts between
the header and the raw text: blank line, description sentence, padding line,
rule marker, blank line. -/
def descBlock (content : String) : String :=
  "\n\n" ++ extractTitle content ++
    " documentation from Saros SDK Docs.\n        \n***\n\n"

/-- Modelled from the spec (C4): the claimed body shape — title line,
canonical-path line, source-origin line, blank line, description sentence,
horizontal-rule marker line, blank line, raw text — with nothing between the
description and the rule marker. -/
def specSingleShape (origin slug content : String) : String :=
  "# " ++ extractTitle content ++ "\n" ++
    "URL: /docs/" ++ slug ++ "\n" ++
    "Source: " ++ origin ++ "/docs/" ++ slug ++ "\n" ++
    "\n" ++
    extractTitle content ++ " documentation from Saros SDK Docs." ++ "\n" ++
    "***" ++ "\n" ++
    "\n" ++
    content

/-- The amended body shape: identical to `specSingleShape` except for an
additional whitespace-only line (eight spaces) between the description
sentence and the rule marker line. -/
def specSingleShapeAmended (origin slug content : String) : String :=
  "# " ++ extractTitle content ++ "\n" ++
    "URL: /docs/" ++ slug ++ "\n" ++
    "Source: " ++ origin ++ "/docs/" ++ slug ++ "\n" ++
    "\n" ++
    extractTitle content ++ " documentation from Saros SDK Docs." ++ "\n" ++
    "        " ++ "\n" ++
    "***" ++ "\n" ++
    "\n" ++
    content

/-- RFC 3986 scheme characters after the leading letter. -/
def isSchemeChar (c : Char) : Bool :=
  c.isAlphanum || c == '+' || c == '-' || c == '.'

/-- Modelled from the spec (C8): a target is a scheme-qualified absolute URL
when it starts with a letter followed by scheme characters and a colon. -/
def specSchemeQualified (s : String) : Bool :=
  match s.data with
  | [] => false
  | c :: rest =>
    c.isAlpha && (rest.takeWhile (fun d => d != ':')).all isSchemeChar &&
      rest.contains ':'

/-- Modelled from the spec (C3): trimming a string removes leading and
trailing whitespace. -/
def specTrim (s : String) : String :=
  String.mk (((s.data.dropWhile Char.isWhitespace).reverse.dropWhile
    Char.isWhitespace).reverse)

/-- A raw text whose first `# `-prefixed line sits inside a fenced code block,
before a real markdown heading. -/
def fencedExample : String :=
  "```\n# not a real heading\n```\n\n# Actual Title"

/-- Extract the advertised `max-age` seconds from a `Cache-Control` value:
the digits following the first occurrence of `max-age=`. -/
def afterSub (pat : List Char) : List Char → Option (List Char)
  | [] => if pat.isPrefixOf ([] : List Char) then some [] else none
  | c :: rest =>
    if pat.isPrefixOf (c :: rest) then some ((c :: rest).drop pat.length)
    else afterSub pat rest

/-- Digits to a natural number, most significant first. -/
def digitsToNat (l : List Char) : Nat :=
  l.foldl (fun n c => n * 10 + (c.toNat - '0'.toNat)) 0

/-- The `max-age` duration advertised by a `Cache-Control` header value. -/
def maxAgeOf (s : String) : Option Nat :=
  (afterSub "max-age=".data s.data).map
    (fun rest => digitsToNat (rest.takeWhile Char.isDigit))

/-! ## Theorems -/

/-- The `data` of an appended string is the appended `data`. -/
theorem data_app (a b : String) : (a ++ b).data = a.data ++ b.data := rfl

/-- Strings with equal character lists are equal. -/
theorem str_ext {a b : String} (h : a.data = b.data) : a = b := by
  cases a; cases b; cases h; rfl

/-- Rebuilding a string from its character list is the identity. -/
theorem mk_data (s : String) : String.mk s.data = s := rfl

/-- String append is associative. -/
theorem str_assoc (a b c : String) : a ++ b ++ c = a ++ (b ++ c) := by
  apply str_ext
  simp [data_app]

/-! ### Facts about the `split` model -/

/-- Scanning the empty list with `splitGo` is a single empty piece, whatever the fuel. -/
theorem splitGo_nil (sep : List Char) (f : Nat) : splitGo sep f [] = [[]] := by
  cases f <;> rfl

/-- A prefix of the first summand extends to a prefix of the whole append. -/
theorem isPrefixOf_append_right (p a b : List Char)
    (h : p.isPrefixOf a = true) : p.isPrefixOf (a ++ b) = true := by
  rw [ List.isPrefixOf_iff_prefix] at h ⊢
  exact h.trans (List.prefix_append a b)

/-- A prefix of an append no longer than the first summand is a prefix of the
first summand. -/
theorem isPrefixOf_append_left (p a b : List Char)
    (h : p.isPrefixOf (a ++ b) = true) (hlen : p.length ≤ a.length) :
    p.isPrefixOf a = true := by
  rw [ List.isPrefixOf_iff_prefix, List.prefix_iff_eq_take] at h ⊢
  rw [h, List.take_append_eq_append_take, Nat.sub_eq_zero_of_le hlen]
  simp [List.take_take]

/-- With fuel at least the length of the scanned list, the fuel does not
affect `splitGo`. -/
theorem splitGo_fuel (sep : List Char) (hsep : sep ≠ []) :
    ∀ (f g : Nat) (cs : List Char), cs.length ≤ f → cs.length ≤ g →
      splitGo sep f cs = splitGo sep g cs := by
  intro f
  induction f with
  | zero =>
    intro g cs hf _
    have : cs = [] := List.length_eq_zero.mp (Nat.le_zero.mp hf)
    subst this
    simp [splitGo_nil]
  | succ f ih =>
    intro g cs hf hg
    cases cs with
    | nil => simp [splitGo_nil]
    | cons c rest =>
      cases g with
      | zero => simp at hg
      | succ g' =>
        have hseplen : 1 ≤ sep.length := by
          cases sep with
          | nil => exact absurd rfl hsep
          | cons a as => simp
        simp only [splitGo]
        by_cases hpre : sep.isPrefixOf (c :: rest) = true
        · rw [if_pos hpre, if_pos hpre]
          rw [ih g' ((c :: rest).drop sep.length)
            (by simp only [List.length_drop, List.length_cons] at hf ⊢; omega)
            (by simp only [List.length_drop, List.length_cons] at hg ⊢; omega)]
        · rw [if_neg hpre, if_neg hpre]
          rw [ih g' rest (by simpa using Nat.le_of_succ_le_succ hf)
            (by simpa using Nat.le_of_succ_le_succ hg)]

/-- If the separator occurs nowhere in the list, `splitGo` returns it whole. -/
theorem splitGo_noMatch (sep : List Char) (_hsep : sep ≠ []) :
    ∀ (s : List Char) (f : Nat),
      (∀ i, ¬ sep.isPrefixOf (s.drop i) = true) →
      s.length ≤ f → splitGo sep f s = [s] := by
  intro s
  induction s with
  | nil =>
    intro f h _
    exact splitGo_nil sep f
  | cons c rest ih =>
    intro f h hf
    cases f with
    | zero => simp at hf
    | succ f' =>
      simp only [splitGo]
      have h0 : ¬ sep.isPrefixOf (c :: rest) = true := by
        have := h 0
        simpa using this
      rw [if_neg h0]
      rw [ih f' (fun i => by have := h (i + 1); simpa [List.drop_succ_cons] using this)
        (by simpa using Nat.le_of_succ_le_succ hf)]

/-- If no occurrence of the separator starts inside `s`, the scan of
`s ++ sep ++ t` cuts exactly at the end of `s`. -/
theorem splitGo_break (sep : List Char) (hsep : sep ≠ []) :
    ∀ (s t : List Char) (f : Nat),
      (∀ i, i < s.length → ¬ sep.isPrefixOf ((s ++ sep ++ t).drop i) = true) →
      (s ++ sep ++ t).length ≤ f →
      splitGo sep f (s ++ sep ++ t) = s :: splitGo sep t.length t := by
  intro s
  induction s with
  | nil =>
    intro t f h hf
    simp only [List.nil_append] at hf ⊢
    have hseplen : 1 ≤ sep.length := by
      cases sep with
      | nil => exact absurd rfl hsep
      | cons a as => simp
    cases f with
    | zero =>
      rw [List.length_append] at hf
      omega
    | succ f' =>
      cases hsd : sep ++ t with
      | nil =>
        exact absurd hsd (List.append_ne_nil_of_left_ne_nil hsep t)
      | cons c cs =>
        simp only [splitGo]
        have hpre : sep.isPrefixOf (c :: cs) = true := by
          rw [← hsd, List.isPrefixOf_iff_prefix]
          exact List.prefix_append sep t
        rw [if_pos hpre, ← hsd, List.drop_left]
        have hft : t.length ≤ f' := by
          rw [List.length_append] at hf
          omega
        rw [splitGo_fuel sep hsep f' t.length t hft le_rfl]
  | cons c s' ih =>
    intro t f h hf
    have hr : (c :: s') ++ sep ++ t = c :: (s' ++ sep ++ t) := by simp
    rw [hr] at hf ⊢
    cases f with
    | zero => simp at hf
    | succ f' =>
      simp only [splitGo]
      have h0 : ¬ sep.isPrefixOf (c :: (s' ++ sep ++ t)) = true := by
        have := h 0 (by simp)
        rw [hr] at this
        simpa using this
      rw [if_neg h0]
      rw [ih t f'
        (fun i hi => by
          have := h (i + 1) (by simp; omega)
          rw [hr] at this
          simpa [List.drop_succ_cons] using this)
        (by simpa using Nat.le_of_succ_le_succ hf)]

/-- Splitting a safe join recovers exactly the joined pieces. -/
theorem jsSplitL_joinSep (sep : List Char) (hsep : sep ≠ []) :
    ∀ segs : List (List Char), segs ≠ [] → (∀ s ∈ segs, Safe sep s) →
      jsSplitL sep (joinSep sep segs) = segs := by
  intro segs
  induction segs with
  | nil => intro h; exact absurd rfl h
  | cons s rest ih =>
    intro _ hsafe
    cases rest with
    | nil =>
      show jsSplitL sep s = [s]
      apply splitGo_noMatch sep hsep s s.length _ le_rfl
      intro i hpre
      by_cases hi : i < s.length
      · apply hsafe s (by simp) i hi
        have hdrop : (s ++ sep).drop i = s.drop i ++ sep := by
          rw [List.drop_append_eq_append_drop,
            Nat.sub_eq_zero_of_le (Nat.le_of_lt hi)]
          simp
        rw [hdrop]
        exact isPrefixOf_append_right sep (s.drop i) sep hpre
      · have hnil : s.drop i = [] := List.drop_eq_nil_of_le (by omega)
        rw [hnil, List.isPrefixOf_iff_prefix] at hpre
        exact hsep (List.prefix_nil.mp hpre)
    | cons s2 rest2 =>
      show jsSplitL sep (s ++ sep ++ joinSep sep (s2 :: rest2)) = s :: (s2 :: rest2)
      unfold jsSplitL
      rw [splitGo_break sep hsep s _ _ ?safe le_rfl]
      · congr 1
        exact ih (by simp) (fun x hx => hsafe x (by simp [hx]))
      case safe =>
        intro i hi hpre
        apply hsafe s (by simp) i hi
        have hdrop : (s ++ sep ++ joinSep sep (s2 :: rest2)).drop i =
            (s ++ sep).drop i ++ joinSep sep (s2 :: rest2) := by
          rw [List.append_assoc, ← List.append_assoc,
            List.drop_append_eq_append_drop]
          have : i - (s ++ sep).length = 0 := by
            rw [List.length_append]
            omega
          rw [this]
          simp
        rw [hdrop] at hpre
        apply isPrefixOf_append_left sep _ _ hpre
        rw [List.length_drop, List.length_append]
        have hseplen : 1 ≤ sep.length := by
          cases sep with
          | nil => exact absurd rfl hsep
          | cons a as => simp
        omega

/-- The function `joinStrings` is `joinSep` on the underlying character lists. -/
theorem joinStrings_data (sep : String) :
    ∀ l : List String,
      (joinStrings sep l).data = joinSep sep.data (l.map String.data) := by
  intro l
  induction l with
  | nil => rfl
  | cons s rest ih =>
    cases rest with
    | nil => rfl
    | cons s2 rest2 =>
      show (s ++ sep ++ joinStrings sep (s2 :: rest2)).data = _
      rw [data_app, data_app, ih]
      rfl

/-- String-level split/join inversion for safe segments. -/
theorem jsSplit_joinStrings (sep : String) (hsep : sep.data ≠ [])
    (segs : List String) (hne : segs ≠ [])
    (hsafe : ∀ s ∈ segs, Safe sep.data s.data) :
    jsSplit sep (joinStrings sep segs) = segs := by
  unfold jsSplit
  rw [joinStrings_data]
  rw [jsSplitL_joinSep sep.data hsep _ (by simpa using hne) ?_]
  · rw [List.map_map]
    have hid : (String.mk ∘ String.data) = id := funext (fun s => mk_data s)
    rw [hid, List.map_id]
  · intro s hs
    rw [List.mem_map] at hs
    obtain ⟨a, ha, rfl⟩ := hs
    exact hsafe a ha

/-- A join of a non-empty list starts with the data of its first element. -/
theorem joinStrings_cons_data (sep a : String) (rest : List String) :
    ∃ t, (joinStrings sep (a :: rest)).data = a.data ++ t := by
  cases rest with
  | nil => exact ⟨[], by simp [joinStrings]⟩
  | cons b r =>
    exact ⟨sep.data ++ (joinStrings sep (b :: r)).data,
      by simp [joinStrings, data_app]⟩

/-- Whatever the load outcomes, the bulk body starts with a `#` character:
both the success segment and the placeholder open with the `# ` marker. -/
theorem combined_starts_hash (store : String → Option String) :
    ∃ t, (combinedContent store).data = '#' :: t := by
  have ha : allDocs store =
      (match store "saros-docs-index" with
        | some content => bulkSegment "saros-docs-index" content
        | none => bulkPlaceholder "saros-docs-index") ::
      (docFiles.tail.map (fun slug =>
        match store slug with
        | some content => bulkSegment slug content
        | none => bulkPlaceholder slug)) := rfl
  obtain ⟨tl, hstart⟩ : ∃ t, (match store "saros-docs-index" with
      | some content => bulkSegment "saros-docs-index" content
      | none => bulkPlaceholder "saros-docs-index").data = '#' :: t := by
    cases store "saros-docs-index" with
    | some c => exact ⟨_, rfl⟩
    | none => exact ⟨_, rfl⟩
  obtain ⟨t2, h2⟩ := joinStrings_cons_data bulkSep
    (match store "saros-docs-index" with
      | some content => bulkSegment "saros-docs-index" content
      | none => bulkPlaceholder "saros-docs-index")
    (docFiles.tail.map (fun slug =>
      match store slug with
      | some content => bulkSegment slug content
      | none => bulkPlaceholder slug))
  refine ⟨tl ++ t2, ?_⟩
  show (joinStrings bulkSep (allDocs store)).data = _
  rw [ha, h2, hstart]
  rfl

/-- C1 (amended): the bulk export body is the separator-join of exactly one
segment per registry identifier, in registry order; an identifier whose load
fails contributes the placeholder segment naming it rather than being
omitted. Splitting the body by the separator recovers exactly these
segments when every segment is separator-safe; loaded text containing the
separator (as the shipped corpus does) breaks the 10-segment split count. -/
theorem bulkExport_segments (store : String → Option String) :
    (allDocs store).length = docFiles.length
  ∧ (∀ i : Nat, (allDocs store)[i]? = docFiles[i]?.map (fun slug =>
      match store slug with
      | some content => bulkSegment slug content
      | none => bulkPlaceholder slug))
  ∧ combinedContent store = joinStrings bulkSep (allDocs store)
  ∧ ((∀ seg ∈ allDocs store, SafeSeg seg) →
      jsSplit bulkSep (combinedContent store) = allDocs store) := by
  refine ⟨by simp [allDocs], fun i => by simp [allDocs, List.getElem?_map], rfl,
    fun hsafe => ?_⟩
  apply jsSplit_joinStrings bulkSep (by decide) _ (by simp [allDocs, docFiles])
  exact fun s hs => hsafe s hs

/-- C1 witness: with every load failing, the split recovers exactly the ten
placeholder segments, in registry order. -/
theorem bulkExport_segments_witness :
    jsSplit bulkSep (combinedContent (fun _ => none)) =
      docFiles.map bulkPlaceholder := by
  have h := (bulkExport_segments (fun _ => none)).2.2.2 (by decide)
  rw [h]
  rfl

set_option maxRecDepth 20000 in
/-- C1 counterexample: with the first registry read succeeding on text that
contains the separator and all others throwing, splitting the bulk body by
the separator yields 11 segments, not one per registry identifier (10). -/
theorem bulkExport_split_count_cex :
    (jsSplit bulkSep (combinedContent cexStore)).length = 11
  ∧ docFiles.length = 10 ∧ (11 : Nat) ≠ 10 := by
  refine ⟨by decide, by decide, by decide⟩

/-- C2: a slug outside the registry gets the fixed 404 body with no storage
read attempted; a registry slug whose storage read throws gets the fixed 500
body. -/
theorem singleRoute_error_handling (store : String → Option String)
    (origin slug : String) :
    (docFiles.contains slug = false →
      getSingle store origin slug =
        (⟨404, "Documentation not found", none, none⟩, []))
  ∧ (docFiles.contains slug = true → store slug = none →
      getSingle store origin slug =
        (⟨500, "Error reading documentation", none, none⟩, [slug])) := by
  constructor
  · intro h
    simp only [getSingle, h]
    simp
  · intro h hn
    simp only [getSingle, h, hn]
    simp

/-- C2 witness: the slug `"intro"` is not in the registry and yields the 404
result with no read; the registry slug `"saros-docs-index"` with a throwing
read yields the 500 result. -/
theorem singleRoute_error_handling_witness :
    getSingle (fun _ => none) "https://example.com" "intro" =
      (⟨404, "Documentation not found", none, none⟩, [])
  ∧ getSingle (fun _ => none) "https://example.com" "saros-docs-index" =
      (⟨500, "Error reading documentation", none, none⟩, ["saros-docs-index"]) :=
  ⟨(singleRoute_error_handling (fun _ => none) "https://example.com" "intro").1
      (by decide),
   (singleRoute_error_handling (fun _ => none) "https://example.com"
      "saros-docs-index").2 (by decide) rfl⟩

/-- C6: for every combination of load outcomes the bulk handler returns a 200
text/plain response carrying the joined artifact; it never takes a 500
branch and its body is never the whole-operation error text. -/
theorem bulkRoute_total (store : String → Option String) :
    (getFull store).status = 200
  ∧ (getFull store).contentType = some "text/plain"
  ∧ (getFull store).cacheControl = some fullCacheControl
  ∧ (getFull store).body = combinedContent store
  ∧ (getFull store).status ≠ 500
  ∧ (getFull store).body ≠ "Error generating documentation" := by
  refine ⟨rfl, rfl, rfl, rfl, by simp [getFull], ?_⟩
  intro h
  obtain ⟨t, ht⟩ := combined_starts_hash store
  have hd := congrArg String.data h
  have hbody : (getFull store).body = combinedContent store := rfl
  rw [hbody, ht] at hd
  have he : ("Error generating documentation" : String).data =
      'E' :: "rror generating documentation".data := rfl
  rw [he] at hd
  have : '#' = 'E' := (List.cons.injEq _ _ _ _).mp hd |>.1
  exact absurd this (by decide)

/-- C10: the single-document cache hint advertises a public max-age of 3600
seconds (one hour), the bulk cache hint a public max-age of 86400 seconds
(one day) with revalidation disabled, and the bulk duration is strictly
longer; these are the headers the two routes attach. -/
theorem cacheHints_values :
    maxAgeOf singleCacheControl = some 3600
  ∧ maxAgeOf fullCacheControl = some 86400
  ∧ 3600 = 60 * 60
  ∧ 86400 = 24 * 60 * 60
  ∧ 3600 < 86400
  ∧ fullRevalidate = false
  ∧ (∀ store : String → Option String,
      (getFull store).cacheControl = some fullCacheControl)
  ∧ (getSingle (fun _ => some "doc") prodOrigin "saros-docs-index").1.cacheControl
      = some singleCacheControl := by
  exact ⟨by decide, by decide, by decide, by decide, by decide, rfl,
    fun _ => rfl, by decide⟩

/-- If a function returns `none` on a whole leading block, `findSome?` over
the appended list is `findSome?` over the remainder. -/
theorem findSome?_append_none {α β : Type} (f : α → Option β)
    (l1 l2 : List α) (h : ∀ a ∈ l1, f a = none) :
    (l1 ++ l2).findSome? f = l2.findSome? f := by
  rw [List.findSome?_append, List.findSome?_eq_none_iff.mpr h]
  rfl

/-- C3 (amended): when no line of the raw text matches the level-1 heading
pattern, title extraction returns the fixed default; when some line matches,
it returns the capture after the `"# "` marker of the first matching line
verbatim — without trimming. -/
theorem extractTitle_characterization :
    (∀ c : String, (∀ l ∈ splitTerm c.data, h1Capture? l = none) →
      extractTitle c = "Saros SDK Documentation" ∧ pageTitle c = "Documentation")
  ∧ (∀ (c : String) (pre : List (List Char)) (l : List Char)
      (post : List (List Char)) (t : List Char),
      splitTerm c.data = pre ++ l :: post →
      (∀ l' ∈ pre, h1Capture? l' = none) →
      h1Capture? l = some t →
      extractTitle c = String.mk t ∧ pageTitle c = String.mk t) := by
  constructor
  · intro c h
    have hm : matchH1 c = none := by
      unfold matchH1
      rw [List.findSome?_eq_none_iff.mpr h]
      rfl
    simp [extractTitle, pageTitle, hm]
  · intro c pre l post t hsp hpre hl
    have hm : matchH1 c = some (String.mk t) := by
      unfold matchH1
      rw [hsp, findSome?_append_none _ _ _ hpre, List.findSome?_cons, hl]
      rfl
    simp [extractTitle, pageTitle, hm]

/-- C3 witness: on `"x\n# Title \ny"` the second line is the first match and
the extracted title is its untrimmed capture `"Title "`. -/
theorem extractTitle_characterization_witness :
    extractTitle "x\n# Title \ny" = "Title "
  ∧ pageTitle "x\n# Title \ny" = "Title " :=
  (extractTitle_characterization).2 "x\n# Title \ny"
    [['x']] "# Title ".data [['y']] "Title ".data
    (by decide) (by decide) (by decide)

/-- C3 counterexample: on a heading line with a trailing space the code
returns the untrimmed capture, not the trimmed heading text the claim
states. -/
theorem extractTitle_trim_cex :
    extractTitle "# Title \nbody" = "Title "
  ∧ specTrim "Title " = "Title"
  ∧ extractTitle "# Title \nbody" ≠ specTrim "Title " := by
  refine ⟨by decide, by decide, by decide⟩

/-- C9: the heading regex is matched against every line, with no exclusion
of fenced code blocks: on `fencedExample` the extracted title is the `# `
line inside the code fence, not the real heading below it and not the
default. -/
theorem extractTitle_fenced_code :
    extractTitle fencedExample = "not a real heading"
  ∧ pageTitle fencedExample = "not a real heading"
  ∧ extractTitle fencedExample ≠ "Actual Title"
  ∧ extractTitle fencedExample ≠ "Saros SDK Documentation"
  ∧ pageTitle fencedExample ≠ "Documentation" := by
  refine ⟨by decide, by decide, by decide, by decide, by decide⟩

/-- C4 (amended): the single-document body consists, in order, of the title
line, the canonical-path line, the source-origin line, a blank line, the
one-line description sentence, a whitespace-only padding line of eight
spaces, the rule marker line, a blank line, and the raw text appended
verbatim. -/
theorem llmText_shape (origin slug content : String) :
    llmText origin slug content = specSingleShapeAmended origin slug content
  ∧ llmText origin slug content =
      singleHeader origin slug content ++ (descBlock content ++ content) := by
  constructor
  · apply str_ext
    simp only [llmText, specSingleShapeAmended, data_app, List.append_assoc,
      List.cons_append, List.nil_append]
  · apply str_ext
    simp only [llmText, singleHeader, descBlock, data_app, List.append_assoc]

set_option maxRecDepth 4000 in
/-- C4 counterexample: the body does not have the shape the claim enumerates
(with the rule marker directly after the description line): the extra
whitespace-only padding line falsifies the exact-shape statement at a
concrete input. -/
theorem llmText_shape_cex :
    llmText prodOrigin "quickstart" "hello" ≠
      specSingleShape prodOrigin "quickstart" "hello" := by decide

/-- C5 (amended): for a successfully loaded identifier the bulk segment
consists of the same three header lines the single-document body opens with
(with the origin fixed to the production host), the blank line, and the raw
text; it omits the description sentence, padding line, rule marker and
following blank line, so the two bodies are never equal. -/
theorem bulkSegment_vs_single (slug content : String) :
    bulkSegment slug content =
      singleHeader prodOrigin slug content ++ ("\n\n" ++ content)
  ∧ llmText prodOrigin slug content =
      singleHeader prodOrigin slug content ++ (descBlock content ++ content)
  ∧ bulkSegment slug content ≠ llmText prodOrigin slug content := by
  have h1 : bulkSegment slug content =
      singleHeader prodOrigin slug content ++ ("\n\n" ++ content) := by
    apply str_ext
    simp only [bulkSegment, singleHeader, prodOrigin, data_app,
      List.append_assoc, List.cons_append, List.nil_append]
  have h2 : llmText prodOrigin slug content =
      singleHeader prodOrigin slug content ++ (descBlock content ++ content) := by
    apply str_ext
    simp only [llmText, singleHeader, descBlock, data_app, List.append_assoc]
  refine ⟨h1, h2, ?_⟩
  intro heq
  rw [h1, h2] at heq
  have hlen := congrArg (fun s : String => s.data.length) heq
  simp only [data_app, List.append_assoc, List.length_append, descBlock] at hlen
  simp at hlen
  omega

set_option maxRecDepth 4000 in
/-- C5 counterexample: at a concrete successfully loaded document the bulk
segment differs from the single-document body built with the same origin. -/
theorem bulkSegment_vs_single_cex :
    bulkSegment "saros-docs-index" "# T\nbody" ≠
      llmText prodOrigin "saros-docs-index" "# T\nbody" := by decide

/-- The number of visible level-1 headings a render pass emits: all level-1
headings of the input, minus one exactly when suppression is on and the
counter is still at zero and the input has a level-1 heading at all. -/
theorem renderList_countP (hide : Bool) :
    ∀ (nodes : List MdNode) (n : Nat),
      (renderList hide n nodes).countP isVisibleH1 =
        nodes.countP isH1Node -
          (if hide = true ∧ n = 0 ∧ 1 ≤ nodes.countP isH1Node then 1 else 0) := by
  cases hide with
  | false =>
    intro nodes
    induction nodes with
    | nil => intro n; simp [renderList]
    | cons node rest ih =>
      intro n
      cases node with
      | h1 t =>
        simp [renderList, renderStep, List.countP_cons, ih, isVisibleH1, isH1Node]
      | h2 t =>
        simp [renderList, renderStep, List.countP_cons, ih, isVisibleH1, isH1Node]
      | h3 t =>
        simp [renderList, renderStep, List.countP_cons, ih, isVisibleH1, isH1Node]
      | h4 t =>
        simp [renderList, renderStep, List.countP_cons, ih, isVisibleH1, isH1Node]
      | p t =>
        simp [renderList, renderStep, List.countP_cons, ih, isVisibleH1, isH1Node]
      | a href t =>
        simp [renderList, renderStep, List.countP_cons, ih, isVisibleH1,
          isH1Node, renderAnchor]
      | hr =>
        simp [renderList, renderStep, List.countP_cons, ih, isVisibleH1, isH1Node]
  | true =>
    intro nodes
    induction nodes with
    | nil => intro n; simp [renderList]
    | cons node rest ih =>
      intro n
      cases node with
      | h1 t =>
        by_cases hn : n = 0
        · subst hn
          simp [renderList, renderStep, List.countP_cons, ih, isVisibleH1, isH1Node]
        · simp [renderList, renderStep, List.countP_cons, ih, isVisibleH1,
            isH1Node, hn]
      | h2 t =>
        simp [renderList, renderStep, List.countP_cons, ih, isVisibleH1, isH1Node]
      | h3 t =>
        simp [renderList, renderStep, List.countP_cons, ih, isVisibleH1, isH1Node]
      | h4 t =>
        simp [renderList, renderStep, List.countP_cons, ih, isVisibleH1, isH1Node]
      | p t =>
        simp [renderList, renderStep, List.countP_cons, ih, isVisibleH1, isH1Node]
      | a href t =>
        simp [renderList, renderStep, List.countP_cons, ih, isVisibleH1,
          isH1Node, renderAnchor]
      | hr =>
        simp [renderList, renderStep, List.countP_cons, ih, isVisibleH1, isH1Node]

/-- C7: with `hideFirstH1` set only the first level-1 heading in document
order is suppressed: a document with exactly two level-1 headings renders
exactly one visible level-1 heading, and without the flag both are
visible. -/
theorem hideFirstH1_only_first (nodes : List MdNode)
    (h : nodes.countP isH1Node = 2) :
    (render true nodes).countP isVisibleH1 = 1
  ∧ (render false nodes).countP isVisibleH1 = 2 := by
  unfold render
  rw [renderList_countP, renderList_countP, h]
  norm_num

/-- C7 witness: a document with two level-1 headings around a paragraph
renders one visible level-1 heading with the flag set and two without. -/
theorem hideFirstH1_only_first_witness :
    (render true [MdNode.h1 "One", MdNode.p "body", MdNode.h1 "Two"]).countP
      isVisibleH1 = 1
  ∧ (render false [MdNode.h1 "One", MdNode.p "body", MdNode.h1 "Two"]).countP
      isVisibleH1 = 2 :=
  hideFirstH1_only_first [MdNode.h1 "One", MdNode.p "body", MdNode.h1 "Two"]
    (by decide)

/-- C8 (amended): every link is rendered with its three external affordances
(new-context target, noopener rel, appended indicator) present together or
absent together, and they are present exactly when the target literally
begins with the four characters `http` — not exactly when the target is a
scheme-qualified absolute URL. -/
theorem linkFlag_startsWithHttp (href : Option String) (text : String) :
    renderAnchor href text = Rendered.anchor href text
      (if startsWithHttp href then some "_blank" else none)
      (if startsWithHttp href then some "noopener noreferrer" else none)
      (startsWithHttp href)
  ∧ (startsWithHttp href = true ↔
      ∃ h rest, href = some h ∧ h.data = "http".data ++ rest) := by
  refine ⟨rfl, ?_⟩
  cases href with
  | none =>
    simp [startsWithHttp]
  | some h =>
    simp only [startsWithHttp]
    rw [ List.isPrefixOf_iff_prefix]
    constructor
    · intro hp
      obtain ⟨t, ht⟩ := hp
      exact ⟨h, t, rfl, ht.symm⟩
    · rintro ⟨h', rest, heq, hdata⟩
      obtain rfl : h = h' := by injection heq
      exact ⟨rest, hdata.symm⟩

/-- C8 counterexample: `mailto:` targets are scheme-qualified absolute URLs
but carry no external affordance, and a relative target beginning with the
letters `http` is flagged although it is not scheme-qualified. -/
theorem linkFlag_scheme_cex :
    specSchemeQualified "mailto:docs@saros.finance" = true
  ∧ renderAnchor (some "mailto:docs@saros.finance") "contact" =
      Rendered.anchor (some "mailto:docs@saros.finance") "contact" none none false
  ∧ specSchemeQualified "httpfoo" = false
  ∧ renderAnchor (some "httpfoo") "x" =
      Rendered.anchor (some "httpfoo") "x" (some "_blank")
        (some "noopener noreferrer") true := by
  refine ⟨by decide, by decide, by decide, by decide⟩

end SarosDocs
